import Mathlib

/-!
Verification of the home-battery control policies
(`DiscreteStatefulRNNModel`, `LazySigRegModel`) and the deployment
adapter (`Calibration`) against their natural-language specification.

Tensors are embedded per batch element: a `(batch, time, 1)` tensor
becomes a `List ℝ` of length `time`; neural blocks (GRU encoder,
convolutions, path-signature features, the `fc` head) are opaque
function parameters, exactly as the specification treats them
("black-box function approximators with a known input/output tensor
contract").  The battery environment (`battery.py`) is not part of the
provided sources, so it is modelled from the specification where
needed; every such definition is marked `Modelled from the spec:`.
-/

namespace GreenBattery

noncomputable section

/-! ## Beta (softness temperature) schedule

Both `DiscreteStatefulRNNModel` and `LazySigRegModel` carry identical
beta-annealing code (`reset_beta`, `on_train_start`,
`on_train_epoch_end`); it is embedded once. -/

/-- The beta-schedule fields shared by both controllers:
`beta`, `beta_min`, `beta_increment`, `beta_max`,
`increase_beta_per_n_epoch` (constructor arguments of both models). -/
structure BetaSched where
  beta : ℝ
  betaMin : ℝ
  betaIncrement : ℝ
  betaMax : ℝ
  increasePerN : ℕ

/-- Source `reset_beta`: `self.beta = self.beta_min`. -/
def resetBeta (s : BetaSched) : BetaSched := { s with beta := s.betaMin }

/-- Source `on_train_start`: calls `self.reset_beta()`. -/
def onTrainStart (s : BetaSched) : BetaSched := resetBeta s

/-- Source `on_train_epoch_end`: if `current_epoch % increase_beta_per_n_epoch == 0`
then `self.beta = min(self.beta + self.beta_increment, self.beta_max)`. -/
def onTrainEpochEnd (s : BetaSched) (currentEpoch : ℕ) : BetaSched :=
  if currentEpoch % s.increasePerN = 0 then
    { s with beta := min (s.beta + s.betaIncrement) s.betaMax }
  else s

/-- Run `K` completed training epochs from state `s`: the Lightning hook
`on_train_epoch_end` fires with `current_epoch = 0, 1, ..., K-1` in order
(the trainer increments `current_epoch` after the hook). -/
def runEpochs (s : BetaSched) : ℕ → BetaSched
  | 0 => s
  | K + 1 => onTrainEpochEnd (runEpochs s K) K

/-- Beta after a fresh training run: `on_train_start` followed by `K`
completed epochs. -/
def betaAfterEpochs (s : BetaSched) (K : ℕ) : ℝ :=
  (runEpochs (onTrainStart s) K).beta

/-- Number of epochs among `0, ..., K-1` whose index is divisible by `N`,
i.e. the number of times `on_train_epoch_end` takes its increment branch. -/
def incrementCount (N : ℕ) : ℕ → ℕ
  | 0 => 0
  | K + 1 => incrementCount N K + if K % N = 0 then 1 else 0

/-! ## Battery environment

Source file `battery.py` is not among the provided sources (only its
callers are); the environment is modelled from the specification. -/

/-- Modelled from the spec: the configuration of `BatteryEnv` /
`SeqBatteryEnv` (missing source `battery.py`): battery capacity (kWh),
maximum charge rate, the peak-tariff cost multiplier, the deterministic
initial state-of-charge returned by `get_initial_state`, and the constant
value of the flat trajectory guess returned by `get_neutral_trace`. -/
structure BatteryConfig where
  capacity : ℝ
  maxChargeRate : ℝ
  peakMult : ℝ
  initialState : ℝ
  neutralState : ℝ

/-- Hard clamp of a proposed state-of-charge onto `[0, capacity]`. -/
def hardClamp (env : BatteryConfig) (x : ℝ) : ℝ := max 0 (min env.capacity x)

/-- Modelled from the spec: `BatteryEnv.step` (missing source
`battery.py`).  The raw proposed energy delta is
`grid_action * max_charge_rate + pv_action * pv_power`; the next
state-of-charge is the proposal clamped onto `[0, capacity]` — by the
hard clamp when `beta` is `None`, by the caller-supplied smooth clamp
family `sc` (the spec fixes no formula for it) when `beta` is given.
Cost is the grid energy actually drawn (absorbed delta minus the free
solar contribution) times price, times the peak multiplier on peak
steps; steps drawing nothing from the grid cost nothing. -/
def batteryStep (env : BatteryConfig) (sc : ℝ → ℝ → ℝ) (beta : Option ℝ)
    (soc gridAction pvAction pvPower price : ℝ) (isPeak : Bool) : ℝ × ℝ :=
  let proposed := soc + gridAction * env.maxChargeRate + pvAction * pvPower
  let next :=
    match beta with
    | none => hardClamp env proposed
    | some b => sc b proposed
  let gridEnergy := next - soc - pvAction * pvPower
  (next, max gridEnergy 0 * price * (if isPeak then env.peakMult else 1))

/-- Unroll of `batteryStep` along zipped per-timestep inputs
`((grid action, pv action), pv power, price, peak)`. -/
def seqSteps (env : BatteryConfig) (sc : ℝ → ℝ → ℝ) (beta : Option ℝ) :
    ℝ → List ((ℝ × ℝ) × ℝ × ℝ × Bool) → List ℝ × List ℝ
  | _, [] => ([], [])
  | soc, ((g, p), pw, pr, pk) :: rest =>
    let r := batteryStep env sc beta soc g p pw pr pk
    let t := seqSteps env sc beta r.1 rest
    (r.1 :: t.1, r.2 :: t.2)

/-- Modelled from the spec: `SeqBatteryEnv.forward` (missing source
`battery.py`) per batch element, unrolling `step` across the time
dimension from the initial state `s0` (the drawn sample when the caller
passes `random_initial_state=True`, `get_initial_state` otherwise).  The
returned battery trace carries the initial state in front — time length
`T + 1`, as required by the callers' `battery_trace[:, 1:]` slices —
while the costs have time length `T`. -/
def seqForward (env : BatteryConfig) (sc : ℝ → ℝ → ℝ) (beta : Option ℝ)
    (s0 : ℝ) (ga pa pvPow price : List ℝ) (peak : List Bool) :
    List ℝ × List ℝ :=
  let t := seqSteps env sc beta s0
    ((ga.zip pa).zip (pvPow.zip (price.zip peak)))
  (s0 :: t.1, t.2)

/-- Modelled from the spec: `SeqBatteryEnv.static_forward` (missing
source `battery.py`) — replays `step` at every timestep against the
given pre-computed battery state rather than the causally propagated
one, returning the stepped states and the costs. -/
def staticForward (env : BatteryConfig) (sc : ℝ → ℝ → ℝ) (beta : Option ℝ)
    (est ga pa pvPow price : List ℝ) (peak : List Bool) :
    List ℝ × List ℝ :=
  let res := (est.zip ((ga.zip pa).zip (pvPow.zip (price.zip peak)))).map
    (fun q =>
      batteryStep env sc beta q.1 q.2.1.1 q.2.1.2 q.2.2.1 q.2.2.2.1 q.2.2.2.2)
  (res.map Prod.fst, res.map Prod.snd)

/-- Modelled from the spec: `get_neutral_trace` (missing source
`battery.py`) — the flat trajectory guess, of time length `T + 1` like
every battery trace. -/
def getNeutralTrace (env : BatteryConfig) (T : ℕ) : List ℝ :=
  List.replicate (T + 1) env.neutralState

/-! ## Discrete policy controller (`discrete_stateful_rnn_model.py`) -/

/-- The fixed 7×2 action lookup table `policy_matrix`. -/
def policy_matrix : Fin 7 → ℝ × ℝ :=
  ![(1.0, 1.0), (0.5, 1.0), (0.0, 1.0), (0.0, 0.5), (0.0, 0.0),
    (-0.5, 0.0), (-1.0, 0.0)]

/-- Comparison step of `torch.argmax` (first maximal index wins ties):
the candidate replaces the incumbent only on strict improvement. -/
def argmaxStep (l : Fin 7 → ℝ) (best i : Fin 7) : Fin 7 :=
  if l best < l i then i else best

/-- Source `torch.argmax(out, dim=-1)` over the 7 logits. -/
def argmax7 (l : Fin 7 → ℝ) : Fin 7 :=
  (List.finRange 7).foldl (argmaxStep l) 0

/-- Source `F.softmax(out, dim=-1)` over the 7 logits. -/
def softmax7 (l : Fin 7 → ℝ) (i : Fin 7) : ℝ :=
  Real.exp (l i) / ∑ j : Fin 7, Real.exp (l j)

/-- Soft branch of action selection: `F.softmax(out) @ policy_matrix`. -/
def softAction (l : Fin 7 → ℝ) : ℝ × ℝ :=
  (∑ i : Fin 7, softmax7 l i * (policy_matrix i).1,
    ∑ i : Fin 7, softmax7 l i * (policy_matrix i).2)

/-- Hard branch of action selection: the table row at
`torch.argmax(out)`. -/
def hardAction (l : Fin 7 → ℝ) : ℝ × ℝ := policy_matrix (argmax7 l)

/-- The `hard_actions` branch of `DiscreteStatefulRNNModel.forward`. -/
def selectAction (hardActions : Bool) (l : Fin 7 → ℝ) : ℝ × ℝ :=
  if hardActions then hardAction l else softAction l

/-- Source `torch.sigmoid`. -/
def sigmoid (x : ℝ) : ℝ := 1 / (1 + Real.exp (-x))

/-- Timestep loop of `DiscreteStatefulRNNModel.forward`, per batch
element.  The GRU encoder stacked with the `fc` head is the opaque
`enc`, consuming the timestep features concatenated with the battery
state normalised by capacity, plus the hidden state, and returning the 7
logits and the new hidden state; each step advances the battery by one
`batteryStep` with the model's `beta`. -/
def discSteps {α H : Type*} (env : BatteryConfig) (sc : ℝ → ℝ → ℝ)
    (beta : Option ℝ) (enc : α → ℝ → H → (Fin 7 → ℝ) × H)
    (hardActions : Bool) :
    ℝ → H → List (α × ℝ × ℝ × Bool) → List ℝ × List ℝ × List ℝ × List ℝ
  | _, _, [] => ([], [], [], [])
  | soc, h, (x, pw, pr, pk) :: rest =>
    let oh := enc x (soc / env.capacity) h
    let a := selectAction hardActions oh.1
    let r := batteryStep env sc beta soc a.1 a.2 pw pr pk
    let t := discSteps env sc beta enc hardActions r.1 oh.2 rest
    (a.1 :: t.1, a.2 :: t.2.1, r.1 :: t.2.2.1, r.2 :: t.2.2.2)

/-- Source `DiscreteStatefulRNNModel.forward` per batch element: the
initial battery state is `get_random_initial_state` (the drawn sample
`rand`) in training mode and `get_initial_state` otherwise; then the
timestep loop runs with the given `hard_actions` flag from hidden state
`h0`. -/
def discreteForward {α H : Type*} (env : BatteryConfig) (sc : ℝ → ℝ → ℝ)
    (beta : Option ℝ) (enc : α → ℝ → H → (Fin 7 → ℝ) × H)
    (training hardActions : Bool) (rand : ℝ) (h0 : H)
    (xs : List (α × ℝ × ℝ × Bool)) :
    List ℝ × List ℝ × List ℝ × List ℝ :=
  let s0 := if training then rand else env.initialState
  discSteps env sc beta enc hardActions s0 h0 xs

/-- Source `DiscreteStatefulRNNModel.training_step`: calls
`self(*batch)` — so `hard_actions` keeps its default `False` — with the
module in training mode. -/
def trainingStepRun {α H : Type*} (env : BatteryConfig) (sc : ℝ → ℝ → ℝ)
    (beta : Option ℝ) (enc : α → ℝ → H → (Fin 7 → ℝ) × H) (rand : ℝ)
    (h0 : H) (xs : List (α × ℝ × ℝ × Bool)) :
    List ℝ × List ℝ × List ℝ × List ℝ :=
  discreteForward env sc beta enc true false rand h0 xs

/-- Source `DiscreteStatefulRNNModel.validation_step`: calls
`self(*batch, hard_actions=False if self.semi_discrete else True)` with
the module in eval mode. -/
def validationStepRun {α H : Type*} (env : BatteryConfig)
    (sc : ℝ → ℝ → ℝ) (beta : Option ℝ)
    (enc : α → ℝ → H → (Fin 7 → ℝ) × H) (semiDiscrete : Bool) (rand : ℝ)
    (h0 : H) (xs : List (α × ℝ × ℝ × Bool)) :
    List ℝ × List ℝ × List ℝ × List ℝ :=
  discreteForward env sc beta enc false
    (if semiDiscrete then false else true) rand h0 xs

/-- Source `DiscreteStatefulRNNModel.step_forward`: one timestep for an
external caller — hard argmax selection unless `semi_discrete`, the
battery state returned unchanged together with the new hidden state. -/
def discStepForward {α H : Type*} (env : BatteryConfig)
    (enc : α → ℝ → H → (Fin 7 → ℝ) × H) (semiDiscrete : Bool) (soc : ℝ)
    (x : α) (h : H) : ℝ × ℝ × ℝ × H :=
  let oh := enc x (soc / env.capacity) h
  let a := if !semiDiscrete then hardAction oh.1 else softAction oh.1
  (a.1, a.2, soc, oh.2)

/-! ## Signature-regression controller (`lazy_signature_regression_model.py`) -/

/-- Per-forward-call inputs of `LazySigRegModel`, per batch element: the
pre-extracted per-timestep features (normalised expanding log-signature
concatenated with the local convolutional features — opaque, type `α`),
pv power, price, and the peak indicator. -/
structure LazyInputs (α : Type*) where
  feats : List α
  pvPow : List ℝ
  price : List ℝ
  peak : List Bool

/-- Action prediction shared by the E-loop body and the final pass of
`LazySigRegModel.forward`: the `fc` head applied to the features
concatenated with battery-trace entries `1..T` normalised by capacity
(`battery_trace[:, 1:] / capacity_kWh`); the grid output is squashed by
`F.tanh`, the solar output by `F.sigmoid`. -/
def predictActions {α : Type*} (capacity : ℝ) (fc : α → ℝ → ℝ × ℝ)
    (feats : List α) (trace : List ℝ) : List ℝ × List ℝ :=
  let raw := List.zipWith (fun a s => fc a (s / capacity)) feats trace.tail
  (raw.map (fun q => Real.tanh q.1), raw.map (fun q => sigmoid q.2))

/-- Source `LazySigRegModel.e_step`: replays the proposed actions
through `SeqBatteryEnv.forward` with `beta=None` (hard clamp) and
`random_initial_state=True` (`r` is the drawn initial state). -/
def eStep (env : BatteryConfig) (sc : ℝ → ℝ → ℝ) (r : ℝ)
    (ga pa pvPow price : List ℝ) (peak : List Bool) : List ℝ × List ℝ :=
  seqForward env sc none r ga pa pvPow price peak

/-- Source `LazySigRegModel.m_step`: squashes the incoming actions once
more (`F.tanh` on grid, `F.sigmoid` on solar) and replays them against
the estimated battery states through `SeqBatteryEnv.static_forward` with
the model's `beta`. -/
def mStep (env : BatteryConfig) (sc : ℝ → ℝ → ℝ) (beta : Option ℝ)
    (ga pa est pvPow price : List ℝ) (peak : List Bool) :
    List ℝ × List ℝ :=
  staticForward env sc beta est (ga.map Real.tanh) (pa.map sigmoid)
    pvPow price peak

/-- One iteration of the trajectory-estimation loop of
`LazySigRegModel.forward`: predict actions from the current trace
estimate, then replay them through `e_step`; only the refined trace is
kept. -/
def eIter {α : Type*} (env : BatteryConfig) (sc : ℝ → ℝ → ℝ)
    (fc : α → ℝ → ℝ × ℝ) (inp : LazyInputs α) (r : ℝ) (trace : List ℝ) :
    List ℝ :=
  let a := predictActions env.capacity fc inp.feats trace
  (eStep env sc r a.1 a.2 inp.pvPow inp.price inp.peak).1

/-- The fixed-count trajectory-estimation loop
(`for _ in range(self.e_step_iters)`) of `LazySigRegModel.forward`, with
the per-iteration random initial-state draws `r`. -/
def eLoop {α : Type*} (env : BatteryConfig) (sc : ℝ → ℝ → ℝ)
    (fc : α → ℝ → ℝ × ℝ) (inp : LazyInputs α) (r : ℕ → ℝ) :
    ℕ → List ℝ → List ℝ
  | 0, trace => trace
  | k + 1, trace => eLoop env sc fc inp r k (eIter env sc fc inp (r k) trace)

/-- Replay counter of the trajectory-estimation loop: how many `e_step`
simulator replays the loop body performs, by the same recursion as
`eLoop`. -/
def eLoopReplayCount {α : Type*} (env : BatteryConfig) (sc : ℝ → ℝ → ℝ)
    (fc : α → ℝ → ℝ × ℝ) (inp : LazyInputs α) (r : ℕ → ℝ) :
    ℕ → List ℝ → ℕ
  | 0, _ => 0
  | k + 1, trace =>
    eLoopReplayCount env sc fc inp r k (eIter env sc fc inp (r k) trace) + 1

/-- Source `LazySigRegModel.forward` per batch element: run the E-loop
`iters = e_step_iters` times from the neutral trace, predict actions
once more from the converged trace (squashed once by `tanh`/`sigmoid`),
hand them to `m_step` for the differentiable static replay, and return
`(grid_actions, pv_actions, battery_trace, costs)` — the E-step trace
and the `m_step` costs; the `fantasy_battery_trace` of `m_step` is
dropped. -/
def lazyForward {α : Type*} (env : BatteryConfig) (sc : ℝ → ℝ → ℝ)
    (beta : Option ℝ) (fc : α → ℝ → ℝ × ℝ) (inp : LazyInputs α)
    (r : ℕ → ℝ) (iters : ℕ) : List ℝ × List ℝ × List ℝ × List ℝ :=
  let trace := eLoop env sc fc inp r iters
    (getNeutralTrace env inp.feats.length)
  let a := predictActions env.capacity fc inp.feats trace
  let m := mStep env sc beta a.1 a.2 trace.tail inp.pvPow inp.price inp.peak
  (a.1, a.2, trace, m.2)

/-- Action head of `LazySigRegModel.step_forward`: the `fc` head on the
(opaque) current signature/local features concatenated with the
normalised battery state, squashed once by `F.tanh` / `F.sigmoid`. -/
def lazyStepForward {α : Type*} (capacity : ℝ) (fc : α → ℝ → ℝ × ℝ)
    (soc : ℝ) (x : α) : ℝ × ℝ :=
  let z := fc x (soc / capacity)
  (Real.tanh z.1, sigmoid z.2)

/-! ## Deployment adapter (`trading_track/calibration.py`) -/

/-- A pandas cell: `none` models NaN. -/
abbrev PCell := Option ℝ

/-- A pandas record keyed by column name: `none` models an absent key,
`some c` a present cell (which may itself be NaN). -/
abbrev PRecord := String → Option PCell

/-- Per-key fill loop of `Calibration.act` (lines 44-48): a key present
in `external_state` keeps its cell, an absent key gets the training-set
mean. -/
def initialFill (ext : PRecord) (means : String → PCell) (k : String) :
    PCell :=
  match ext k with
  | some v => v
  | none => means k

/-- Source `fillna`: NaN cells are replaced by the filler's cell
(staying NaN if the filler's cell is NaN too). -/
def fillna (cur filler : String → PCell) (k : String) : PCell :=
  match cur k with
  | some v => some v
  | none => filler k

/-- The record `current` after the fill logic of `Calibration.act`
(lines 42-55): external/mean per-key fill, then `fillna` from the last
historical record when one exists, else from the means again. -/
def currentRecord (ext : PRecord) (means : String → PCell)
    (hist : List (String → PCell)) : String → PCell :=
  match hist.getLast? with
  | some last => fillna (initialFill ext means) last
  | none => fillna (initialFill ext means) means

/-- Source `Calibration.act`: builds `current`, runs the (opaque)
preprocessor-plus-model pipeline on it to get
`(grid_action, pv_action)`, then computes
`pv_charge = pv_action * external_state["pv_power"]` — a direct lookup
in the raw record, raising `KeyError` (modelled as `none`) when
`pv_power` is absent — and
`grid_charge = grid_action * internal_state["max_charge_rate"]`,
returning `(pv_charge, grid_charge)`. -/
def calibrationAct (ext : PRecord) (means : String → PCell)
    (hist : List (String → PCell)) (model : (String → PCell) → ℝ × ℝ)
    (maxChargeRate : ℝ) : Option (PCell × ℝ) :=
  let cur := currentRecord ext means hist
  match ext "pv_power" with
  | none => none
  | some pvp =>
    let a := model cur
    some (pvp.map (fun v => a.2 * v), a.1 * maxChargeRate)

/-! ## Concrete fixtures for closed evaluations -/

/-- Example battery configuration for concrete evaluations: capacity 10
kWh, maximum charge rate 1, peak multiplier 1, deterministic initial
state 5, neutral trace value 0. -/
def exEnv : BatteryConfig := ⟨10, 1, 1, 5, 0⟩

/-- Identity stand-in for the unspecified smooth-clamp family; every
concrete evaluation below runs with `beta = none`, where it is unused. -/
def exClamp : ℝ → ℝ → ℝ := fun _ x => x

/-- Constant prediction head for concrete evaluations: raw grid output
1, raw solar output 0. -/
def exFc : Unit → ℝ → ℝ × ℝ := fun _ _ => (1, 0)

/-- One-timestep model inputs for concrete evaluations: pv power 0,
price 1, off-peak. -/
def exInp : LazyInputs Unit := ⟨[()], [0], [1], [false]⟩

/-- Example training-set means for the adapter: every column has mean
3. -/
def exMeans : String → PCell := fun _ => some 3

/-- Example external-state record: only `timestamp` is present (in
particular `pv_power` and `price` are absent). -/
def exExt : PRecord := fun k => if k = "timestamp" then some (some 0) else none

/-- Example last historical record: every column was last observed as
7. -/
def exLast : String → PCell := fun _ => some 7

/-- Constant stand-in for the adapter's preprocessor-plus-model
pipeline. -/
def exModel : (String → PCell) → ℝ × ℝ := fun _ => (1, 1)

/-! ## Helper lemmas -/

lemma onTrainEpochEnd_betaMin (s : BetaSched) (k : ℕ) :
    (onTrainEpochEnd s k).betaMin = s.betaMin := by
  unfold onTrainEpochEnd; split <;> rfl

lemma onTrainEpochEnd_betaIncrement (s : BetaSched) (k : ℕ) :
    (onTrainEpochEnd s k).betaIncrement = s.betaIncrement := by
  unfold onTrainEpochEnd; split <;> rfl

lemma onTrainEpochEnd_betaMax (s : BetaSched) (k : ℕ) :
    (onTrainEpochEnd s k).betaMax = s.betaMax := by
  unfold onTrainEpochEnd; split <;> rfl

lemma onTrainEpochEnd_increasePerN (s : BetaSched) (k : ℕ) :
    (onTrainEpochEnd s k).increasePerN = s.increasePerN := by
  unfold onTrainEpochEnd; split <;> rfl

lemma runEpochs_fields (s : BetaSched) (K : ℕ) :
    (runEpochs s K).betaMin = s.betaMin ∧
      (runEpochs s K).betaIncrement = s.betaIncrement ∧
      (runEpochs s K).betaMax = s.betaMax ∧
      (runEpochs s K).increasePerN = s.increasePerN := by
  induction K with
  | zero => exact ⟨rfl, rfl, rfl, rfl⟩
  | succ K ih =>
    refine ⟨?_, ?_, ?_, ?_⟩ <;>
      simp [runEpochs, onTrainEpochEnd_betaMin, onTrainEpochEnd_betaIncrement,
        onTrainEpochEnd_betaMax, onTrainEpochEnd_increasePerN, ih.1, ih.2.1,
        ih.2.2.1, ih.2.2.2]

lemma min_incr_step {b M d : ℝ} (hd : 0 ≤ d) :
    min (min b M + d) M = min (b + d) M := by
  rcases le_total b M with h | h
  · rw [min_eq_left h]
  · rw [min_eq_right h]
    have h1 : M ≤ b + d := by linarith
    have h2 : M ≤ M + d := by linarith
    rw [min_eq_right h1, min_eq_right h2]

lemma runEpochs_beta (s : BetaSched) (hinc : 0 ≤ s.betaIncrement)
    (hle : s.betaMin ≤ s.betaMax) (K : ℕ) :
    (runEpochs (onTrainStart s) K).beta
      = min (s.betaMin + s.betaIncrement * incrementCount s.increasePerN K)
          s.betaMax := by
  induction K with
  | zero =>
    simp [runEpochs, onTrainStart, resetBeta, incrementCount, min_eq_left hle]
  | succ K ih =>
    have hfields := runEpochs_fields (onTrainStart s) K
    have hmin : (runEpochs (onTrainStart s) K).betaMin = s.betaMin := hfields.1
    have hincr : (runEpochs (onTrainStart s) K).betaIncrement
        = s.betaIncrement := hfields.2.1
    have hmax : (runEpochs (onTrainStart s) K).betaMax = s.betaMax :=
      hfields.2.2.1
    have hN : (runEpochs (onTrainStart s) K).increasePerN = s.increasePerN :=
      hfields.2.2.2
    show (onTrainEpochEnd (runEpochs (onTrainStart s) K) K).beta = _
    unfold onTrainEpochEnd
    rw [hN]
    by_cases hK : K % s.increasePerN = 0
    · simp only [hK, if_pos rfl]
      simp only [ih, hincr, hmax, incrementCount, if_pos hK]
      rw [min_incr_step hinc]
      push_cast
      ring_nf
    · rw [if_neg hK]
      have hcnt : incrementCount s.increasePerN (K + 1)
          = incrementCount s.increasePerN K := by
        simp [incrementCount, hK]
      rw [hcnt]
      exact ih

lemma incrementCount_eq_ceil (N : ℕ) (hN : 0 < N) (K : ℕ) :
    incrementCount N K = (K + N - 1) / N := by
  induction K with
  | zero =>
    have h0 : (N - 1) / N = 0 := Nat.div_eq_of_lt (by omega)
    simp [incrementCount, h0]
  | succ K ih =>
    have hstep : incrementCount N (K + 1)
        = incrementCount N K + if K % N = 0 then 1 else 0 := rfl
    rw [hstep, ih]
    by_cases hK : K % N = 0
    · have hdvd : N ∣ K := Nat.dvd_of_mod_eq_zero hK
      obtain ⟨q, rfl⟩ := hdvd
      rw [if_pos hK]
      have h1 : N * q + 1 + N - 1 = N * (q + 1) := by
        rw [Nat.mul_add, Nat.mul_one]; omega
      have h2 : N * q + N - 1 = N * q + (N - 1) := by omega
      rw [h1, h2, Nat.mul_div_cancel_left _ hN, Nat.mul_add_div hN,
        Nat.div_eq_of_lt (by omega : N - 1 < N)]
    · have hKpos : 0 < K := by
        rcases Nat.eq_zero_or_pos K with h | h
        · exact absurd (by simp [h]) hK
        · exact h
      rw [if_neg hK, Nat.add_zero]
      have hndvd : ¬ N ∣ K := fun h => hK (Nat.dvd_iff_mod_eq_zero.mp h)
      have h1 : K + 1 + N - 1 = K + N := by omega
      have h2 : K + N - 1 = (K - 1) + N := by omega
      have h3 : (K - 1) + 1 = K := by omega
      have h4 : ((K - 1) + 1) / N = (K - 1) / N :=
        Nat.succ_div_of_not_dvd (by rw [h3]; exact hndvd)
      rw [h3] at h4
      rw [h1, h2, Nat.add_div_right _ hN, Nat.add_div_right _ hN, h4]

lemma exp_formula_tanh (x : ℝ) :
    Real.tanh x = (Real.exp (2 * x) - 1) / (Real.exp (2 * x) + 1) := by
  rw [Real.tanh_eq_sinh_div_cosh, Real.sinh_eq, Real.cosh_eq, Real.exp_neg]
  have h0 : Real.exp x ≠ 0 := (Real.exp_pos x).ne'
  have h2 : Real.exp (2 * x) = Real.exp x * Real.exp x := by
    rw [two_mul, Real.exp_add]
  have h3 : Real.exp x + (Real.exp x)⁻¹ ≠ 0 := by positivity
  have h4 : Real.exp x * Real.exp x + 1 ≠ 0 := by positivity
  rw [h2]
  field_simp

lemma tanh_lt_one (x : ℝ) : Real.tanh x < 1 := by
  rw [exp_formula_tanh]
  have h : (0 : ℝ) < Real.exp (2 * x) + 1 := by positivity
  rw [div_lt_one h]
  linarith

lemma neg_one_lt_tanh (x : ℝ) : -1 < Real.tanh x := by
  rw [exp_formula_tanh]
  have h : (0 : ℝ) < Real.exp (2 * x) + 1 := by positivity
  rw [lt_div_iff₀ h]
  have := Real.exp_pos (2 * x)
  linarith

lemma tanh_nonneg {x : ℝ} (hx : 0 ≤ x) : 0 ≤ Real.tanh x := by
  rw [exp_formula_tanh]
  have h1 : 1 ≤ Real.exp (2 * x) := Real.one_le_exp (by linarith)
  have h : (0 : ℝ) < Real.exp (2 * x) + 1 := by positivity
  exact div_nonneg (by linarith) h.le

lemma tanh_injective : Function.Injective Real.tanh := by
  intro a b hab
  rw [exp_formula_tanh, exp_formula_tanh] at hab
  have ha : (0 : ℝ) < Real.exp (2 * a) := Real.exp_pos _
  have hb : (0 : ℝ) < Real.exp (2 * b) := Real.exp_pos _
  have hcross := (div_eq_div_iff (by positivity) (by positivity)).mp hab
  have heq : Real.exp (2 * a) = Real.exp (2 * b) := by
    linear_combination hcross / 2
  have := Real.exp_eq_exp.mp heq
  linarith

lemma tanh_tanh_one_ne : Real.tanh (Real.tanh 1) ≠ Real.tanh 1 := by
  intro h
  have h1 : Real.tanh 1 = 1 := tanh_injective h
  exact absurd h1 (tanh_lt_one 1).ne

lemma sigmoid_pos (x : ℝ) : 0 < sigmoid x := by
  unfold sigmoid
  positivity

lemma sigmoid_lt_one (x : ℝ) : sigmoid x < 1 := by
  unfold sigmoid
  have h : (0 : ℝ) < 1 + Real.exp (-x) := by positivity
  rw [div_lt_one h]
  have := Real.exp_pos (-x)
  linarith

lemma softmax7_nonneg (l : Fin 7 → ℝ) (i : Fin 7) : 0 ≤ softmax7 l i := by
  unfold softmax7
  have hs : (0 : ℝ) < ∑ j : Fin 7, Real.exp (l j) :=
    Finset.sum_pos (fun j _ => Real.exp_pos _) ⟨0, Finset.mem_univ 0⟩
  exact div_nonneg (Real.exp_pos _).le hs.le

lemma softmax7_sum_one (l : Fin 7 → ℝ) : ∑ i : Fin 7, softmax7 l i = 1 := by
  unfold softmax7
  have hs : (0 : ℝ) < ∑ j : Fin 7, Real.exp (l j) :=
    Finset.sum_pos (fun j _ => Real.exp_pos _) ⟨0, Finset.mem_univ 0⟩
  rw [← Finset.sum_div]
  exact div_self hs.ne'

lemma softmax7_weighted_bounds (l v : Fin 7 → ℝ) (lo hi : ℝ)
    (hv : ∀ i, lo ≤ v i ∧ v i ≤ hi) :
    lo ≤ (∑ i : Fin 7, softmax7 l i * v i) ∧
      (∑ i : Fin 7, softmax7 l i * v i) ≤ hi := by
  constructor
  · calc lo = (∑ i : Fin 7, softmax7 l i) * lo := by
          rw [softmax7_sum_one, one_mul]
      _ = ∑ i : Fin 7, softmax7 l i * lo := Finset.sum_mul _ _ _
      _ ≤ ∑ i : Fin 7, softmax7 l i * v i :=
          Finset.sum_le_sum (fun i _ =>
            mul_le_mul_of_nonneg_left (hv i).1 (softmax7_nonneg l i))
  · calc (∑ i : Fin 7, softmax7 l i * v i)
        ≤ ∑ i : Fin 7, softmax7 l i * hi :=
          Finset.sum_le_sum (fun i _ =>
            mul_le_mul_of_nonneg_left (hv i).2 (softmax7_nonneg l i))
      _ = (∑ i : Fin 7, softmax7 l i) * hi := (Finset.sum_mul _ _ _).symm
      _ = hi := by rw [softmax7_sum_one, one_mul]

lemma policy_matrix_grid_mem (i : Fin 7) :
    -1 ≤ (policy_matrix i).1 ∧ (policy_matrix i).1 ≤ 1 := by
  fin_cases i <;> norm_num [policy_matrix]

lemma policy_matrix_pv_mem (i : Fin 7) :
    0 ≤ (policy_matrix i).2 ∧ (policy_matrix i).2 ≤ 1 := by
  fin_cases i <;> norm_num [policy_matrix]

lemma seqSteps_lengths (env : BatteryConfig) (sc : ℝ → ℝ → ℝ)
    (beta : Option ℝ) (l : List ((ℝ × ℝ) × ℝ × ℝ × Bool)) :
    ∀ s : ℝ, (seqSteps env sc beta s l).1.length = l.length ∧
      (seqSteps env sc beta s l).2.length = l.length := by
  induction l with
  | nil => intro s; exact ⟨rfl, rfl⟩
  | cons hd tl ih =>
    intro s
    obtain ⟨⟨g, p⟩, pw, pr, pk⟩ := hd
    simpa [seqSteps] using ih _

lemma seqForward_lengths (env : BatteryConfig) (sc : ℝ → ℝ → ℝ)
    (beta : Option ℝ) (s0 : ℝ) {T : ℕ}
    {ga pa pvPow price : List ℝ} {peak : List Bool}
    (h1 : ga.length = T) (h2 : pa.length = T) (h3 : pvPow.length = T)
    (h4 : price.length = T) (h5 : peak.length = T) :
    (seqForward env sc beta s0 ga pa pvPow price peak).1.length = T + 1 ∧
      (seqForward env sc beta s0 ga pa pvPow price peak).2.length = T := by
  have hs := seqSteps_lengths env sc beta
    ((ga.zip pa).zip (pvPow.zip (price.zip peak))) s0
  unfold seqForward
  constructor
  · simp [hs.1, List.length_zip, h1, h2, h3, h4, h5]
  · simp [hs.2, List.length_zip, h1, h2, h3, h4, h5]

lemma staticForward_lengths (env : BatteryConfig) (sc : ℝ → ℝ → ℝ)
    (beta : Option ℝ) {T : ℕ}
    {est ga pa pvPow price : List ℝ} {peak : List Bool}
    (h0 : est.length = T) (h1 : ga.length = T) (h2 : pa.length = T)
    (h3 : pvPow.length = T) (h4 : price.length = T) (h5 : peak.length = T) :
    (staticForward env sc beta est ga pa pvPow price peak).1.length = T ∧
      (staticForward env sc beta est ga pa pvPow price peak).2.length
        = T := by
  unfold staticForward
  constructor <;> simp [List.length_zip, h0, h1, h2, h3, h4, h5]

lemma predictActions_lengths {α : Type*} (capacity : ℝ)
    (fc : α → ℝ → ℝ × ℝ) {feats : List α} {trace : List ℝ} {T : ℕ}
    (hf : feats.length = T) (ht : trace.length = T + 1) :
    (predictActions capacity fc feats trace).1.length = T ∧
      (predictActions capacity fc feats trace).2.length = T := by
  unfold predictActions
  constructor <;> simp [List.length_zipWith, hf, List.length_tail, ht]

lemma eIter_length {α : Type*} (env : BatteryConfig) (sc : ℝ → ℝ → ℝ)
    (fc : α → ℝ → ℝ × ℝ) (inp : LazyInputs α) (r : ℝ) {T : ℕ}
    (hf : inp.feats.length = T) (h3 : inp.pvPow.length = T)
    (h4 : inp.price.length = T) (h5 : inp.peak.length = T)
    {trace : List ℝ} (ht : trace.length = T + 1) :
    (eIter env sc fc inp r trace).length = T + 1 := by
  have hp := predictActions_lengths env.capacity fc hf ht
  unfold eIter eStep
  exact (seqForward_lengths env sc none r hp.1 hp.2 h3 h4 h5).1

lemma eLoop_length {α : Type*} (env : BatteryConfig) (sc : ℝ → ℝ → ℝ)
    (fc : α → ℝ → ℝ × ℝ) (inp : LazyInputs α) (r : ℕ → ℝ) {T : ℕ}
    (hf : inp.feats.length = T) (h3 : inp.pvPow.length = T)
    (h4 : inp.price.length = T) (h5 : inp.peak.length = T) :
    ∀ (k : ℕ) (trace : List ℝ), trace.length = T + 1 →
      (eLoop env sc fc inp r k trace).length = T + 1 := by
  intro k
  induction k with
  | zero => intro trace ht; exact ht
  | succ k ih =>
    intro trace ht
    simp only [eLoop]
    exact ih _ (eIter_length env sc fc inp (r k) hf h3 h4 h5 ht)

lemma discSteps_lengths {α H : Type*} (env : BatteryConfig)
    (sc : ℝ → ℝ → ℝ) (beta : Option ℝ)
    (enc : α → ℝ → H → (Fin 7 → ℝ) × H) (hard : Bool)
    (xs : List (α × ℝ × ℝ × Bool)) :
    ∀ (s : ℝ) (h : H),
      (discSteps env sc beta enc hard s h xs).1.length = xs.length ∧
        (discSteps env sc beta enc hard s h xs).2.1.length = xs.length ∧
        (discSteps env sc beta enc hard s h xs).2.2.1.length = xs.length ∧
        (discSteps env sc beta enc hard s h xs).2.2.2.length
          = xs.length := by
  induction xs with
  | nil => intro s h; exact ⟨rfl, rfl, rfl, rfl⟩
  | cons hd tl ih =>
    intro s h
    obtain ⟨x, pw, pr, pk⟩ := hd
    have ihh := ih (batteryStep env sc beta s
        (selectAction hard (enc x (s / env.capacity) h).1).1
        (selectAction hard (enc x (s / env.capacity) h).1).2 pw pr pk).1
      (enc x (s / env.capacity) h).2
    exact ⟨by simp only [discSteps, List.length_cons, ihh.1],
      by simp only [discSteps, List.length_cons, ihh.2.1],
      by simp only [discSteps, List.length_cons, ihh.2.2.1],
      by simp only [discSteps, List.length_cons, ihh.2.2.2]⟩

lemma tanh_one_le_ten : Real.tanh 1 ≤ 10 :=
  (tanh_lt_one 1).le.trans (by norm_num)

lemma tanh_one_nonneg : (0 : ℝ) ≤ Real.tanh 1 := tanh_nonneg zero_le_one

lemma tanh_tanh_one_le_ten : Real.tanh (Real.tanh 1) ≤ 10 :=
  (tanh_lt_one _).le.trans (by norm_num)

lemma tanh_tanh_one_nonneg : (0 : ℝ) ≤ Real.tanh (Real.tanh 1) :=
  tanh_nonneg tanh_one_nonneg

lemma exForward_eval :
    (lazyForward exEnv exClamp none exFc exInp (fun _ => 0) 0).1
        = [Real.tanh 1]
      ∧ (lazyForward exEnv exClamp none exFc exInp (fun _ => 0) 0).2.1
        = [sigmoid 0]
      ∧ (lazyForward exEnv exClamp none exFc exInp (fun _ => 0) 0).2.2.1
        = [0, 0]
      ∧ (lazyForward exEnv exClamp none exFc exInp (fun _ => 0) 0).2.2.2
        = [Real.tanh (Real.tanh 1)] := by
  refine ⟨?_, ?_, ?_, ?_⟩
  · simp [lazyForward, eLoop, getNeutralTrace, predictActions, exEnv, exFc,
      exInp, List.replicate]
  · simp [lazyForward, eLoop, getNeutralTrace, predictActions, exEnv, exFc,
      exInp, List.replicate]
  · simp [lazyForward, eLoop, getNeutralTrace, exEnv, exInp, List.replicate]
  · simp [lazyForward, eLoop, getNeutralTrace, predictActions, mStep, eStep,
      staticForward, batteryStep, hardClamp, exEnv, exClamp, exFc, exInp,
      List.replicate]
    rw [min_eq_right tanh_tanh_one_le_ten, max_eq_right tanh_tanh_one_nonneg]

/-! ## Claim theorems -/

/-- Claim C2, counterexample: with anneal interval `N = 2`, increment
`0.1`, floor `0.5` and ceiling `5`, beta after `K = 1` completed epochs
is `0.6` — `on_train_epoch_end` already increments at epoch 0 because
`0 % N == 0` — while the claimed formula
`min(beta_min + Δ·⌊K/N⌋, beta_max)` gives `0.5`. -/
theorem betaSchedule_floor_formula_cex :
    betaAfterEpochs ⟨0.7, 0.5, 0.1, 5, 2⟩ 1
      ≠ min ((0.5 : ℝ) + 0.1 * (((1 / 2 : ℕ) : ℝ))) 5 := by
  norm_num [betaAfterEpochs, runEpochs, onTrainStart, resetBeta,
    onTrainEpochEnd, min_def]

/-- Claim C2 (amended: the increment fires at epochs `0, N, 2N, …`, so
the number of increments after `K` completed epochs is `⌈K/N⌉`, not
`⌊K/N⌋`): for both controllers — whose beta code is identical — with
anneal interval `N ≥ 1`, increment `Δ ≥ 0` and `beta_min ≤ beta_max`,
after `K` completed epochs `beta = min(beta_min + Δ·⌈K/N⌉, beta_max)`
where `⌈K/N⌉ = (K + N - 1) / N` in natural division; beta is exactly
`beta_min` at epoch 0 (after `on_train_start`); and `reset_beta`
restores `beta_min`. -/
theorem betaSchedule_ceil_formula (s : BetaSched)
    (hN : 0 < s.increasePerN) (hinc : 0 ≤ s.betaIncrement)
    (hle : s.betaMin ≤ s.betaMax) (K : ℕ) :
    betaAfterEpochs s K
        = min (s.betaMin + s.betaIncrement
            * (((K + s.increasePerN - 1) / s.increasePerN : ℕ) : ℝ))
          s.betaMax
      ∧ betaAfterEpochs s 0 = s.betaMin
      ∧ (resetBeta s).beta = s.betaMin := by
  refine ⟨?_, rfl, rfl⟩
  rw [betaAfterEpochs, runEpochs_beta s hinc hle,
    incrementCount_eq_ceil _ hN]

/-- Witness for the amended C2 formula at a concrete schedule, `K = 5`. -/
theorem betaSchedule_ceil_formula_witness :
    betaAfterEpochs ⟨0.7, 0.5, 0.1, 5, 2⟩ 5
        = min ((0.5 : ℝ) + 0.1 * (((5 + 2 - 1) / 2 : ℕ) : ℝ)) 5
      ∧ betaAfterEpochs ⟨0.7, 0.5, 0.1, 5, 2⟩ 0 = 0.5
      ∧ (resetBeta ⟨0.7, 0.5, 0.1, 5, 2⟩).beta = 0.5 :=
  betaSchedule_ceil_formula ⟨0.7, 0.5, 0.1, 5, 2⟩ (by norm_num)
    (by norm_num) (by norm_num) 5

/-- Claim C4: the trajectory-estimation loop of
`LazySigRegModel.forward` starts from the neutral trace (first
conjunct) and performs exactly `e_step_iters` alternations of action
prediction and simulator replay: it satisfies the plain counting
recurrence with no convergence check or data-dependent exit (second and
third conjuncts); every replay goes through `e_step`, which always
calls `SeqBatteryEnv.forward` with `beta=None` — hard clamp, the
no-gradient evaluation (fourth conjunct); and the number of simulator
replays performed equals `e_step_iters` for every input, so the
iteration count never depends on the values computed (fifth conjunct).
The loop is a structurally recursive total function, hence it always
terminates. -/
theorem eLoop_fixed_iteration_count (α : Type) (env : BatteryConfig)
    (sc : ℝ → ℝ → ℝ) (fc : α → ℝ → ℝ × ℝ) (inp : LazyInputs α)
    (r : ℕ → ℝ) :
    (∀ (beta : Option ℝ) (iters : ℕ),
        (lazyForward env sc beta fc inp r iters).2.2.1
          = eLoop env sc fc inp r iters
              (getNeutralTrace env inp.feats.length))
  ∧ (∀ trace : List ℝ, eLoop env sc fc inp r 0 trace = trace)
  ∧ (∀ (k : ℕ) (trace : List ℝ),
      eLoop env sc fc inp r (k + 1) trace
        = eLoop env sc fc inp r k (eIter env sc fc inp (r k) trace))
  ∧ (∀ (r0 : ℝ) (ga pa pvPow price : List ℝ) (peak : List Bool),
      eStep env sc r0 ga pa pvPow price peak
        = seqForward env sc none r0 ga pa pvPow price peak)
  ∧ (∀ (k : ℕ) (trace : List ℝ),
      eLoopReplayCount env sc fc inp r k trace = k) := by
  refine ⟨fun _ _ => rfl, fun _ => rfl, fun _ _ => rfl,
    fun _ _ _ _ _ _ => rfl, ?_⟩
  intro k
  induction k with
  | zero => intro trace; rfl
  | succ k ih =>
    intro trace
    simp only [eLoopReplayCount]
    rw [ih]

/-- Claim C6: the discrete controller's `training_step` always selects
actions softly — it calls `forward` with the default
`hard_actions=False`, in training mode — while `validation_step` passes
`hard_actions = False if semi_discrete else True` in eval mode, and
`step_forward` takes the hard branch exactly when `semi_discrete` is
unset; `hard_actions=False` means the softmax expectation over the
table, `hard_actions=True` the argmax table row. -/
theorem selection_branch_by_mode (α H : Type) (env : BatteryConfig)
    (sc : ℝ → ℝ → ℝ) (beta : Option ℝ)
    (enc : α → ℝ → H → (Fin 7 → ℝ) × H) (rand : ℝ) (h0 : H)
    (xs : List (α × ℝ × ℝ × Bool)) (semi : Bool) (soc : ℝ) (x : α)
    (h : H) :
    trainingStepRun env sc beta enc rand h0 xs
        = discreteForward env sc beta enc true false rand h0 xs
  ∧ validationStepRun env sc beta enc semi rand h0 xs
        = discreteForward env sc beta enc false
            (if semi then false else true) rand h0 xs
  ∧ (∀ l : Fin 7 → ℝ, selectAction false l = softAction l)
  ∧ (∀ l : Fin 7 → ℝ, selectAction true l = hardAction l)
  ∧ ((discStepForward env enc false soc x h).1
        = (hardAction (enc x (soc / env.capacity) h).1).1
      ∧ (discStepForward env enc false soc x h).2.1
        = (hardAction (enc x (soc / env.capacity) h).1).2)
  ∧ ((discStepForward env enc true soc x h).1
        = (softAction (enc x (soc / env.capacity) h).1).1
      ∧ (discStepForward env enc true soc x h).2.1
        = (softAction (enc x (soc / env.capacity) h).1).2) :=
  ⟨rfl, rfl, fun _ => rfl, fun _ => rfl, ⟨rfl, rfl⟩, ⟨rfl, rfl⟩⟩

/-- Claim C1, counterexample: at a one-timestep input with constant raw
network output `(1, 0)`, zero pv power, unit price, off-peak, hard
clamping: the cost returned by `LazySigRegModel.forward` is
`tanh(tanh 1)` — `m_step` re-applies `tanh` to the already-squashed grid
action — which differs from the cost of replaying the returned action
`tanh 1` itself through `static_forward`. -/
theorem lazy_costs_not_returned_actions_cex :
    (lazyForward exEnv exClamp none exFc exInp (fun _ => 0) 0).2.2.2
      ≠ (staticForward exEnv exClamp none
          ((lazyForward exEnv exClamp none exFc exInp
              (fun _ => 0) 0).2.2.1.tail)
          ((lazyForward exEnv exClamp none exFc exInp (fun _ => 0) 0).1)
          ((lazyForward exEnv exClamp none exFc exInp (fun _ => 0) 0).2.1)
          exInp.pvPow exInp.price exInp.peak).2 := by
  have he := exForward_eval
  rw [he.2.2.2, he.1, he.2.1, he.2.2.1]
  simp only [List.tail_cons]
  simp [staticForward, batteryStep, hardClamp, exEnv, exClamp, exInp]
  rw [min_eq_right tanh_one_le_ten, max_eq_right tanh_one_nonneg]
  exact tanh_tanh_one_ne

/-- Claim C1 (amended: `m_step` squashes its incoming actions once more,
so the cost tensor returned by `LazySigRegModel.forward` is the static
replay of the returned actions passed a second time through
`tanh`/`sigmoid` — `tanh(tanh z)` and `sigmoid(sigmoid z)` for raw
network output `z` — not of the returned actions themselves; the
returned actions are the raw outputs squashed once). -/
theorem lazy_costs_replay_resquashed_actions (α : Type)
    (env : BatteryConfig) (sc : ℝ → ℝ → ℝ) (beta : Option ℝ)
    (fc : α → ℝ → ℝ × ℝ) (inp : LazyInputs α) (r : ℕ → ℝ) (iters : ℕ) :
    (lazyForward env sc beta fc inp r iters).2.2.2
      = (staticForward env sc beta
          ((lazyForward env sc beta fc inp r iters).2.2.1.tail)
          ((lazyForward env sc beta fc inp r iters).1.map Real.tanh)
          ((lazyForward env sc beta fc inp r iters).2.1.map sigmoid)
          inp.pvPow inp.price inp.peak).2 := rfl

/-- Claim C7: for every input, the battery trace returned by
`LazySigRegModel.forward` is the E-step estimate (computed under
no-grad with hard clamping and the randomized initial state), and the
returned costs are the `m_step` static-replay costs — so battery states
and costs come from two different simulator passes; the
`fantasy_battery_trace` produced by that very `m_step` call is
discarded, and at a concrete input it differs from the returned trace
(the time lengths already differ). -/
theorem lazy_forward_returns_estep_trace :
    (∀ (α : Type) (env : BatteryConfig) (sc : ℝ → ℝ → ℝ)
        (beta : Option ℝ) (fc : α → ℝ → ℝ × ℝ) (inp : LazyInputs α)
        (r : ℕ → ℝ) (iters : ℕ),
      (lazyForward env sc beta fc inp r iters).2.2.1
          = eLoop env sc fc inp r iters
              (getNeutralTrace env inp.feats.length)
        ∧ (lazyForward env sc beta fc inp r iters).2.2.2
          = (mStep env sc beta
              (lazyForward env sc beta fc inp r iters).1
              (lazyForward env sc beta fc inp r iters).2.1
              ((lazyForward env sc beta fc inp r iters).2.2.1.tail)
              inp.pvPow inp.price inp.peak).2)
  ∧ (lazyForward exEnv exClamp none exFc exInp (fun _ => 0) 0).2.2.1
      ≠ (mStep exEnv exClamp none
          (lazyForward exEnv exClamp none exFc exInp (fun _ => 0) 0).1
          (lazyForward exEnv exClamp none exFc exInp (fun _ => 0) 0).2.1
          ((lazyForward exEnv exClamp none exFc exInp
              (fun _ => 0) 0).2.2.1.tail)
          exInp.pvPow exInp.price exInp.peak).1 := by
  constructor
  · intro α env sc beta fc inp r iters
    exact ⟨rfl, rfl⟩
  · intro h
    have hlen := congrArg List.length h
    have he := exForward_eval
    rw [he.1, he.2.1, he.2.2.1] at hlen
    norm_num [mStep, staticForward, exInp, List.length_zip] at hlen

/-- Claim C8, counterexample: the signature controller's E-step passes
`random_initial_state=True` unconditionally, so even outside training
its forward output depends on the random draw: with one E-iteration,
two runs differing only in the drawn initial state (0 versus 1) return
different battery traces. -/
theorem lazy_eval_random_state_cex :
    lazyForward exEnv exClamp none exFc exInp (fun _ => 0) 1
      ≠ lazyForward exEnv exClamp none exFc exInp (fun _ => 1) 1 := by
  intro h
  have e0 : (lazyForward exEnv exClamp none exFc exInp
      (fun _ => 0) 1).2.2.1.headI = 0 := rfl
  have e1 : (lazyForward exEnv exClamp none exFc exInp
      (fun _ => 1) 1).2.2.1.headI = 1 := rfl
  have h3 : (lazyForward exEnv exClamp none exFc exInp
        (fun _ => 0) 1).2.2.1.headI
      = (lazyForward exEnv exClamp none exFc exInp
          (fun _ => 1) 1).2.2.1.headI := by rw [h]
  rw [e0, e1] at h3
  exact absurd h3 (by norm_num)

/-- Claim C8 (amended: the deterministic fixed start at eval time holds
for the discrete controller — whose eval forward is independent of the
random draw — while the signature controller's E-step uses the
randomized initial state unconditionally, so its forward depends on the
draw even outside training). -/
theorem initial_state_by_mode (α H : Type) (env : BatteryConfig)
    (sc : ℝ → ℝ → ℝ) (beta : Option ℝ)
    (enc : α → ℝ → H → (Fin 7 → ℝ) × H) (hard : Bool) (h0 : H)
    (xs : List (α × ℝ × ℝ × Bool)) :
    (∀ rand rand' : ℝ,
        discreteForward env sc beta enc false hard rand h0 xs
          = discreteForward env sc beta enc false hard rand' h0 xs)
  ∧ (∀ rand : ℝ,
        discreteForward env sc beta enc true hard rand h0 xs
          = discSteps env sc beta enc hard rand h0 xs)
  ∧ lazyForward exEnv exClamp none exFc exInp (fun _ => 0) 1
      ≠ lazyForward exEnv exClamp none exFc exInp (fun _ => 1) 1 := by
  refine ⟨fun _ _ => rfl, fun _ => rfl, ?_⟩
  intro h
  have e0 : (lazyForward exEnv exClamp none exFc exInp
      (fun _ => 0) 1).2.2.1.headI = 0 := rfl
  have e1 : (lazyForward exEnv exClamp none exFc exInp
      (fun _ => 1) 1).2.2.1.headI = 1 := rfl
  have h3 : (lazyForward exEnv exClamp none exFc exInp
        (fun _ => 0) 1).2.2.1.headI
      = (lazyForward exEnv exClamp none exFc exInp
          (fun _ => 1) 1).2.2.1.headI := by rw [h]
  rw [e0, e1] at h3
  exact absurd h3 (by norm_num)

/-- Claim C9, counterexample: at a one-timestep input the battery-state
tensor returned by `LazySigRegModel.forward` has time length 2 — the
E-step trace including the initial state — not the input sequence
length 1. -/
theorem lazy_trace_shape_cex :
    (lazyForward exEnv exClamp none exFc exInp (fun _ => 0) 0).2.2.1.length
      ≠ exInp.feats.length := by
  rw [exForward_eval.2.2.1]
  simp [exInp]

/-- Claim C9 (amended: the `(batch, time, 1)` contract holds for all
four outputs of the discrete controller, whose output tensors are
preallocated at that shape; for the signature controller the grid
actions, solar actions and costs have time length `T`, but the returned
battery trace has time length `T + 1`, carrying the initial state). -/
theorem forward_output_lengths (α H : Type) (env : BatteryConfig)
    (sc : ℝ → ℝ → ℝ) (beta : Option ℝ)
    (enc : α → ℝ → H → (Fin 7 → ℝ) × H) (training hard : Bool)
    (rand : ℝ) (h0 : H) (xs : List (α × ℝ × ℝ × Bool))
    (fc : α → ℝ → ℝ × ℝ) (inp : LazyInputs α) (r : ℕ → ℝ) (iters : ℕ)
    (h3 : inp.pvPow.length = inp.feats.length)
    (h4 : inp.price.length = inp.feats.length)
    (h5 : inp.peak.length = inp.feats.length) :
    ((discreteForward env sc beta enc training hard rand h0 xs).1.length
          = xs.length
      ∧ (discreteForward env sc beta enc training hard rand h0
          xs).2.1.length = xs.length
      ∧ (discreteForward env sc beta enc training hard rand h0
          xs).2.2.1.length = xs.length
      ∧ (discreteForward env sc beta enc training hard rand h0
          xs).2.2.2.length = xs.length)
  ∧ ((lazyForward env sc beta fc inp r iters).1.length
          = inp.feats.length
      ∧ (lazyForward env sc beta fc inp r iters).2.1.length
          = inp.feats.length
      ∧ (lazyForward env sc beta fc inp r iters).2.2.1.length
          = inp.feats.length + 1
      ∧ (lazyForward env sc beta fc inp r iters).2.2.2.length
          = inp.feats.length) := by
  constructor
  · exact discSteps_lengths env sc beta enc hard xs _ h0
  · have hneutral : (getNeutralTrace env inp.feats.length).length
        = inp.feats.length + 1 := by
      simp [getNeutralTrace]
    have htr : (eLoop env sc fc inp r iters
        (getNeutralTrace env inp.feats.length)).length
          = inp.feats.length + 1 :=
      eLoop_length env sc fc inp r rfl h3 h4 h5 iters _ hneutral
    have hp := predictActions_lengths env.capacity fc
      (rfl : inp.feats.length = inp.feats.length) htr
    have htail : (eLoop env sc fc inp r iters
        (getNeutralTrace env inp.feats.length)).tail.length
          = inp.feats.length := by
      simp [List.length_tail, htr]
    have hg : ((predictActions env.capacity fc inp.feats
        (eLoop env sc fc inp r iters
          (getNeutralTrace env inp.feats.length))).1.map Real.tanh).length
        = inp.feats.length := by simpa using hp.1
    have hq : ((predictActions env.capacity fc inp.feats
        (eLoop env sc fc inp r iters
          (getNeutralTrace env inp.feats.length))).2.map sigmoid).length
        = inp.feats.length := by simpa using hp.2
    have hm := staticForward_lengths env sc beta htail hg hq h3 h4 h5
    exact ⟨hp.1, hp.2, htr, hm.2⟩

lemma finRange_seven : List.finRange 7 = [0, 1, 2, 3, 4, 5, 6] := by decide

lemma argmax7_const_zero : argmax7 (fun _ => (0 : ℝ)) = 0 := by
  unfold argmax7
  rw [finRange_seven]
  simp [argmaxStep]

lemma argmax7_peak_six :
    argmax7 (fun i => if i = (6 : Fin 7) then (1 : ℝ) else 0) = 6 := by
  have h0 : ¬ ((0 : Fin 7) = 6) := by decide
  have h1 : ¬ ((1 : Fin 7) = 6) := by decide
  have h2 : ¬ ((2 : Fin 7) = 6) := by decide
  have h3 : ¬ ((3 : Fin 7) = 6) := by decide
  have h4 : ¬ ((4 : Fin 7) = 6) := by decide
  have h5 : ¬ ((5 : Fin 7) = 6) := by decide
  unfold argmax7
  rw [finRange_seven]
  norm_num [argmaxStep, h0, h1, h2, h3, h4, h5]

/-- Claim C3: the fixed 7×2 action table equals exactly
`[(1,1), (0.5,1), (0,1), (0,0.5), (0,0), (-0.5,0), (-1,0)]` in that
order, and in hard mode the selected `(grid, solar)` pair is the table
row at the argmax of the 7 logits — index 0 yields `(1,1)`, index 6
yields `(-1,0)`, for every logit vector. -/
theorem policy_table_and_hard_mode :
    policy_matrix 0 = (1.0, 1.0) ∧ policy_matrix 1 = (0.5, 1.0)
  ∧ policy_matrix 2 = (0.0, 1.0) ∧ policy_matrix 3 = (0.0, 0.5)
  ∧ policy_matrix 4 = (0.0, 0.0) ∧ policy_matrix 5 = (-0.5, 0.0)
  ∧ policy_matrix 6 = (-1.0, 0.0)
  ∧ (∀ l : Fin 7 → ℝ, selectAction true l = policy_matrix (argmax7 l))
  ∧ (∀ l : Fin 7 → ℝ, argmax7 l = 0 → selectAction true l = (1.0, 1.0))
  ∧ (∀ l : Fin 7 → ℝ, argmax7 l = 6 →
      selectAction true l = (-1.0, 0.0)) := by
  refine ⟨rfl, rfl, rfl, rfl, rfl, rfl, rfl, fun l => rfl, ?_, ?_⟩
  · intro l hl
    have h : selectAction true l = policy_matrix (argmax7 l) := rfl
    rw [h, hl]
    rfl
  · intro l hl
    have h : selectAction true l = policy_matrix (argmax7 l) := rfl
    rw [h, hl]
    rfl

/-- Witness for C3, discharging the argmax hypotheses at two concrete
logit vectors. -/
theorem policy_table_and_hard_mode_witness :
    (argmax7 (fun _ => (0 : ℝ)) = 0
      ∧ selectAction true (fun _ => (0 : ℝ)) = (1.0, 1.0))
  ∧ (argmax7 (fun i => if i = (6 : Fin 7) then (1 : ℝ) else 0) = 6
      ∧ selectAction true (fun i => if i = (6 : Fin 7) then (1 : ℝ) else 0)
        = (-1.0, 0.0)) :=
  ⟨⟨argmax7_const_zero,
    policy_table_and_hard_mode.2.2.2.2.2.2.2.2.1 _ argmax7_const_zero⟩,
   ⟨argmax7_peak_six,
    policy_table_and_hard_mode.2.2.2.2.2.2.2.2.2 _ argmax7_peak_six⟩⟩

/-- Claim C5: every action emitted by either controller satisfies
grid ∈ [-1, 1] and solar ∈ [0, 1]: the discrete controller's soft
action (softmax expectation over the table) and hard action (a table
row), for every logit vector; and the signature controller's
tanh/sigmoid-squashed actions, both those returned by `forward` and
those from `step_forward`. -/
theorem actions_within_ranges (α : Type) :
    (∀ l : Fin 7 → ℝ, -1 ≤ (softAction l).1 ∧ (softAction l).1 ≤ 1
        ∧ 0 ≤ (softAction l).2 ∧ (softAction l).2 ≤ 1)
  ∧ (∀ l : Fin 7 → ℝ, -1 ≤ (hardAction l).1 ∧ (hardAction l).1 ≤ 1
        ∧ 0 ≤ (hardAction l).2 ∧ (hardAction l).2 ≤ 1)
  ∧ (∀ (capacity : ℝ) (fc : α → ℝ → ℝ × ℝ) (soc : ℝ) (x : α),
        -1 ≤ (lazyStepForward capacity fc soc x).1
          ∧ (lazyStepForward capacity fc soc x).1 ≤ 1
          ∧ 0 ≤ (lazyStepForward capacity fc soc x).2
          ∧ (lazyStepForward capacity fc soc x).2 ≤ 1)
  ∧ (∀ (env : BatteryConfig) (sc : ℝ → ℝ → ℝ) (beta : Option ℝ)
        (fc : α → ℝ → ℝ × ℝ) (inp : LazyInputs α) (r : ℕ → ℝ)
        (iters : ℕ) (g : ℝ),
        g ∈ (lazyForward env sc beta fc inp r iters).1 →
          -1 ≤ g ∧ g ≤ 1)
  ∧ (∀ (env : BatteryConfig) (sc : ℝ → ℝ → ℝ) (beta : Option ℝ)
        (fc : α → ℝ → ℝ × ℝ) (inp : LazyInputs α) (r : ℕ → ℝ)
        (iters : ℕ) (p : ℝ),
        p ∈ (lazyForward env sc beta fc inp r iters).2.1 →
          0 ≤ p ∧ p ≤ 1) := by
  refine ⟨?_, ?_, ?_, ?_, ?_⟩
  · intro l
    have hg := softmax7_weighted_bounds l (fun i => (policy_matrix i).1)
      (-1) 1 policy_matrix_grid_mem
    have hp := softmax7_weighted_bounds l (fun i => (policy_matrix i).2)
      0 1 policy_matrix_pv_mem
    exact ⟨hg.1, hg.2, hp.1, hp.2⟩
  · intro l
    exact ⟨(policy_matrix_grid_mem _).1, (policy_matrix_grid_mem _).2,
      (policy_matrix_pv_mem _).1, (policy_matrix_pv_mem _).2⟩
  · intro capacity fc soc x
    simp only [lazyStepForward]
    exact ⟨(neg_one_lt_tanh _).le, (tanh_lt_one _).le,
      (sigmoid_pos _).le, (sigmoid_lt_one _).le⟩
  · intro env sc beta fc inp r iters g hg
    simp only [lazyForward, predictActions, List.mem_map] at hg
    obtain ⟨q, _, rfl⟩ := hg
    exact ⟨(neg_one_lt_tanh _).le, (tanh_lt_one _).le⟩
  · intro env sc beta fc inp r iters p hp
    simp only [lazyForward, predictActions, List.mem_map] at hp
    obtain ⟨q, _, rfl⟩ := hp
    exact ⟨(sigmoid_pos _).le, (sigmoid_lt_one _).le⟩

/-- Witness for C5, discharging the list-membership hypotheses at the
concrete one-timestep forward run. -/
theorem actions_within_ranges_witness :
    (-1 ≤ Real.tanh 1 ∧ Real.tanh 1 ≤ 1)
  ∧ (0 ≤ sigmoid 0 ∧ sigmoid 0 ≤ 1) := by
  constructor
  · exact (actions_within_ranges Unit).2.2.2.1 exEnv exClamp none exFc
      exInp (fun _ => 0) 0 (Real.tanh 1)
      (by rw [exForward_eval.1]; exact List.mem_singleton_self _)
  · exact (actions_within_ranges Unit).2.2.2.2 exEnv exClamp none exFc
      exInp (fun _ => 0) 0 (sigmoid 0)
      (by rw [exForward_eval.2.1]; exact List.mem_singleton_self _)

/-- Witness for the amended C9 at a concrete one-timestep batch for
both controllers. -/
theorem forward_output_lengths_witness :
    ((discreteForward exEnv exClamp none
          (fun (_ : Unit) (_ : ℝ) (_ : Unit) =>
            ((fun _ => (0 : ℝ)), ())) false false 0 ()
          [((), 0, 1, false)]).1.length = 1
      ∧ (discreteForward exEnv exClamp none
          (fun (_ : Unit) (_ : ℝ) (_ : Unit) =>
            ((fun _ => (0 : ℝ)), ())) false false 0 ()
          [((), 0, 1, false)]).2.1.length = 1
      ∧ (discreteForward exEnv exClamp none
          (fun (_ : Unit) (_ : ℝ) (_ : Unit) =>
            ((fun _ => (0 : ℝ)), ())) false false 0 ()
          [((), 0, 1, false)]).2.2.1.length = 1
      ∧ (discreteForward exEnv exClamp none
          (fun (_ : Unit) (_ : ℝ) (_ : Unit) =>
            ((fun _ => (0 : ℝ)), ())) false false 0 ()
          [((), 0, 1, false)]).2.2.2.length = 1)
  ∧ ((lazyForward exEnv exClamp none exFc exInp (fun _ => 0) 0).1.length
        = 1
      ∧ (lazyForward exEnv exClamp none exFc exInp
          (fun _ => 0) 0).2.1.length = 1
      ∧ (lazyForward exEnv exClamp none exFc exInp
          (fun _ => 0) 0).2.2.1.length = 1 + 1
      ∧ (lazyForward exEnv exClamp none exFc exInp
          (fun _ => 0) 0).2.2.2.length = 1) :=
  forward_output_lengths Unit Unit exEnv exClamp none
    (fun (_ : Unit) (_ : ℝ) (_ : Unit) => ((fun _ => (0 : ℝ)), ()))
    false false 0 () [((), 0, 1, false)] exFc exInp (fun _ => 0) 0
    rfl rfl rfl

/-- Claim C10, counterexample: with `pv_power` absent from the external
record, `Calibration.act` raises a `KeyError` (modelled `none`), because
the charge computation reads `external_state["pv_power"]` directly; and
a key absent from the external record (`price` here) is filled with the
training-set mean (3) even though a last observed value (7) exists, so
missing fields are not forward-filled first. -/
theorem calibration_missing_fields_cex :
    calibrationAct exExt exMeans [] exModel 5 = none
  ∧ currentRecord exExt exMeans [exLast] "price" = some 3
  ∧ exLast "price" = some 7 ∧ ((3 : ℝ) ≠ 7) :=
  ⟨rfl, rfl, rfl, by norm_num⟩

/-- Claim C10 (amended: keys absent from the external record are filled
with the precomputed training-set mean, not the last observed value;
present-but-NaN fields are forward-filled from the last observed record
when one exists, falling back to the mean; the call returns normally
whatever fields are missing, except that an absent `pv_power` raises a
`KeyError` from the direct `external_state["pv_power"]` lookup). -/
theorem calibration_fill_semantics (ext : PRecord)
    (means : String → PCell) (hist : List (String → PCell))
    (model : (String → PCell) → ℝ × ℝ) (cr : ℝ) (k : String) :
    (∀ x : ℝ, ext k = some (some x) →
        currentRecord ext means hist k = some x)
  ∧ (∀ last, ext k = some none → hist.getLast? = some last →
        currentRecord ext means hist k = last k)
  ∧ (ext k = some none → hist.getLast? = none →
        currentRecord ext means hist k = means k)
  ∧ (∀ x : ℝ, ext k = none → means k = some x →
        currentRecord ext means hist k = some x)
  ∧ (∀ last, ext k = none → means k = none →
        hist.getLast? = some last →
        currentRecord ext means hist k = last k)
  ∧ (ext "pv_power" = none →
        calibrationAct ext means hist model cr = none)
  ∧ (∀ c : PCell, ext "pv_power" = some c →
        calibrationAct ext means hist model cr
          = some (c.map
              (fun v => (model (currentRecord ext means hist)).2 * v),
            (model (currentRecord ext means hist)).1 * cr)) := by
  refine ⟨?_, ?_, ?_, ?_, ?_, ?_, ?_⟩
  · intro x hx
    cases hl : hist.getLast? <;>
      simp [currentRecord, fillna, initialFill, hx, hl]
  · intro last hx hl
    simp [currentRecord, fillna, initialFill, hx, hl]
  · intro hx hl
    simp [currentRecord, fillna, initialFill, hx, hl]
  · intro x hx hm
    cases hl : hist.getLast? <;>
      simp [currentRecord, fillna, initialFill, hx, hm, hl]
  · intro last hx hm hl
    simp [currentRecord, fillna, initialFill, hx, hm, hl]
  · intro hp
    simp [calibrationAct, hp]
  · intro c hp
    simp [calibrationAct, hp]

/-- Witness for the amended C10 at the concrete records. -/
theorem calibration_fill_semantics_witness :
    currentRecord exExt exMeans [exLast] "price" = some 3
  ∧ calibrationAct exExt exMeans [] exModel 5 = none := by
  constructor
  · exact (calibration_fill_semantics exExt exMeans [exLast] exModel 5
      "price").2.2.2.1 3 rfl rfl
  · exact (calibration_fill_semantics exExt exMeans [] exModel 5
      "pv_power").2.2.2.2.2.1 rfl

end

end GreenBattery
